import Mathlib

/-!
Verification development for the saypi data-access and pagination engine
(package `say`, file `repository.go`). The Go repository layer is shallowly
embedded: the relational store is a record of row lists, prepared SQL
statements become pure list queries, and fallible operations return
`Except RepoError`. Randomness and the insert path of the store are passed
in as explicit oracles.
-/

set_option maxRecDepth 10000

namespace Saypi

/-- A mood value object, mirroring the Go `Mood` struct: `Name`, `Eyes`,
`Tongue`, `UserDefined` and the storage-only internal sequence `id`. -/
structure Mood where
  name : String
  eyes : String
  tongue : String
  userDefined : Bool
  id : Int
deriving Repr, DecidableEq

/-- The fixed catalog of built-in moods, in declared order
(`builtinMoods` in repository.go). -/
def builtinMoods : List Mood :=
  [⟨"default", "oo", "  ", false, 0⟩,
   ⟨"borg", "==", "  ", false, 0⟩,
   ⟨"dead", "xx", "U ", false, 0⟩,
   ⟨"greedy", "$$", "  ", false, 0⟩,
   ⟨"stoned", "**", "U ", false, 0⟩,
   ⟨"tired", "--", "  ", false, 0⟩,
   ⟨"wired", "OO", "  ", false, 0⟩,
   ⟨"young", "..", "  ", false, 0⟩]

/-- A row of the `moods` table: serial `id`, `user_id`, `name` (stored
lowercased by the upsert), and the display columns. -/
structure MoodRow where
  id : Int
  userId : String
  name : String
  eyes : String
  tongue : String
deriving Repr, DecidableEq

/-- A row of the `conversations` table. -/
structure ConvoRow where
  id : Int
  publicId : String
  userId : String
  heading : String
deriving Repr, DecidableEq

/-- A row of the `lines` table. `moodId` is the nullable foreign key
`mood_id`; `moodName` is the denormalized `mood_name` column. -/
structure LineRow where
  id : Int
  publicId : String
  animal : String
  think : Bool
  text : String
  moodName : String
  moodId : Option Int
  conversationId : Int
deriving Repr, DecidableEq

/-- The relational store visible to the repository. -/
structure DB where
  moods : List MoodRow
  conversations : List ConvoRow
  lines : List LineRow
deriving Repr, DecidableEq

/-- The Go `listArgs` struct: `Before`, `After`, `Limit`. The HTTP layer
validates `Limit` into `[0,100]`, so it is a `Nat` here. -/
structure ListArgs where
  before : String
  after : String
  limit : Nat
deriving Repr, DecidableEq

/-- The typed failure values of the repository. `cursorNotFound`,
`builtinMood` and `recordNotFound` are the sentinel error variables;
`conflict` is `conflictErr`; `generationExhausted` is the error produced
when the identifier retry loop runs out; `storeErr` stands for an
underlying storage failure and `wrapped` for a `fmt.Errorf` wrap (which in
Go yields a fresh error value, never equal to a sentinel). -/
inductive RepoError where
  | cursorNotFound
  | builtinMood
  | recordNotFound
  | conflict (ids : List String)
  | generationExhausted
  | storeErr (msg : String)
  | wrapped (ctx : String) (e : RepoError)
deriving Repr, DecidableEq

/-- Lowercasing of a string, character by character: Go `strings.ToLower`
and SQL `lower()` on the ASCII names used here (spelled out over the
character list so that it evaluates inside the kernel). -/
def strLower (s : String) : String := String.mk (s.data.map Char.toLower)

/-- Go `strings.EqualFold`, restricted to the ASCII names used here. -/
def eqFold (a b : String) : Bool := strLower a == strLower b

/-- `isBuiltin` from repository.go: case-insensitive membership of `name`
among the built-in mood names. -/
def isBuiltin (name : String) : Bool :=
  builtinMoods.any (fun b => eqFold b.name name)

/-- `sortAsc` from repository.go: ascending iff `After` is set or
`Before` is empty. -/
def sortAsc (args : ListArgs) : Bool :=
  args.after != "" || args.before == ""

/-- Ordering of `moods` rows by internal sequence id (the `ORDER BY 1`
of the list statements, whose first selected column is `id`). -/
def moodRowLE (a b : MoodRow) : Prop := a.id ≤ b.id

instance : DecidableRel moodRowLE := fun a b => inferInstanceAs (Decidable (a.id ≤ b.id))

instance : IsTotal MoodRow moodRowLE := ⟨fun a b => le_total a.id b.id⟩

instance : IsTrans MoodRow moodRowLE := ⟨fun _ _ _ hab hbc => le_trans hab hbc⟩

/-- The rows produced by the prepared `listMoods` statement: filter by
owner and cursor boundary, order by sequence id in the requested
direction, and apply the SQL `LIMIT :limit + 1` (the `+ 1` is in the SQL
text itself; the caller passes `limitParam`). -/
def moodQueryRows (db : DB) (userId : String) (asc : Bool) (cursorId : Int)
    (limitParam : Nat) : List MoodRow :=
  let matched := db.moods.filter (fun m =>
    m.userId == userId && (decide (cursorId < 0) ||
      (if asc then decide (cursorId < m.id) else decide (m.id < cursorId))))
  let sorted := List.insertionSort moodRowLE matched
  let ordered := if asc then sorted else sorted.reverse
  ordered.take (limitParam + 1)

/-- The prepared `findMood` statement: first row with this owner and
case-insensitively equal name. -/
def findMood (db : DB) (userId name : String) : Option MoodRow :=
  db.moods.find? (fun m => m.userId == userId && (strLower m.name) == (strLower name))

/-- Conversion of a `moods` row into the value object, as done in the
scan loop of `listUserMoods`: `UserDefined` is set and `id` copied. -/
def rowToMood (m : MoodRow) : Mood := ⟨m.name, m.eyes, m.tongue, true, m.id⟩

/-- `listUserMoods` from repository.go: resolve the cursor name through
`findMood` (absent cursor is the `-1` sentinel), run the list statement
with `args.Limit + 1` as the limit parameter, and trim the overflow row. -/
def listUserMoods (db : DB) (userId : String) (asc : Bool) (args : ListArgs) :
    Except RepoError (List Mood × Bool) :=
  let cursor := if asc then args.after else args.before
  match (if cursor == "" then some (-1 : Int)
         else (findMood db userId cursor).map (·.id)) with
  | none => .error .cursorNotFound
  | some cursorId =>
    let moods := (moodQueryRows db userId asc cursorId (args.limit + 1)).map rowToMood
    let hasMore := decide (moods.length > args.limit)
    .ok (if hasMore then moods.take args.limit else moods, hasMore)

/-- The scan loop of `listBuiltinMoods`: walk `scan`, start collecting
once `found` holds (initially true only when no cursor is given, flipped
on an exact name match), and stop once the collected length reaches
`limit` (tracked here as the remaining capacity; the loop never breaks
when the remaining capacity starts at 0, as in Go where `len(moods)` can
never equal a limit of 0 after an append). Returns the collected moods
and the final `found` flag. -/
def scanBuiltins (cursor : String) : List Mood → Bool → Nat → List Mood × Bool
  | [], found, _ => ([], found)
  | m :: rest, found, remaining =>
    if found then
      if remaining == 1 then ([m], true)
      else
        let r := scanBuiltins cursor rest true (remaining - 1)
        (m :: r.1, r.2)
    else if m.name == cursor then scanBuiltins cursor rest true remaining
    else scanBuiltins cursor rest false remaining

/-- `listBuiltinMoods` from repository.go: linear scan of the catalog in
the requested direction with capacity `args.Limit + 1`, cursor-not-found
when a given cursor never matches, overflow detection and trim. -/
def listBuiltinMoods (asc : Bool) (args : ListArgs) :
    Except RepoError (List Mood × Bool) :=
  let cursor := if asc then args.after else args.before
  let limit := args.limit + 1
  let scan := if asc then builtinMoods else builtinMoods.reverse
  let initFound := args.after == "" && args.before == ""
  let r := scanBuiltins cursor scan initFound limit
  if !r.2 then .error .cursorNotFound
  else
    let hasMore := decide (r.1.length > args.limit)
    .ok (if hasMore then r.1.take args.limit else r.1, hasMore)

/-- The type of a pagination source closure, as stored in the `sources`
array of `ListMoods`. -/
abbrev MoodSource := Bool → ListArgs → Except RepoError (List Mood × Bool)

/-- The tail of `ListMoods` (lines 253-265): query the second source,
wrap any non-cursor error with its source name, pass a cursor-not-found
through unchanged, and otherwise append its items to `moods`, taking
`hasMore` from the second source alone. -/
def mergeSecond (src2 : MoodSource) (n2 : String) (asc : Bool) (args : ListArgs)
    (moods : List Mood) : Except RepoError (List Mood × Bool) :=
  match src2 asc args with
  | .error e =>
    if e != .cursorNotFound then .error (.wrapped ("listing " ++ n2 ++ " moods") e)
    else .error e
  | .ok (more, hasMore) => .ok (moods ++ more, hasMore)

/-- The body of `ListMoods` (lines 238-265), generic over the two source
closures exactly as the Go code is. On a cursor-not-found from the first
source the second source is queried with the original, unmodified `args`;
on success of the first source the limit is first reduced by the number
of items returned and both cursors cleared, and only then the early
return condition `len(moods) == args.Limit` is evaluated. -/
def mergeListMoods (src1 src2 : MoodSource) (n1 n2 : String) (asc : Bool)
    (args : ListArgs) : Except RepoError (List Mood × Bool) :=
  match src1 asc args with
  | .error e =>
    if e != .cursorNotFound then .error (.wrapped ("listing " ++ n1 ++ " moods") e)
    else mergeSecond src2 n2 asc args []
  | .ok (moods, _) =>
    let args2 : ListArgs := ⟨"", "", args.limit - moods.length⟩
    if moods.length == args2.limit then .ok (moods, true)
    else mergeSecond src2 n2 asc args2 moods

/-- The `userSrc` closure of `ListMoods`. -/
def userMoodSource (db : DB) (userId : String) : MoodSource :=
  fun asc args => listUserMoods db userId asc args

/-- `ListMoods` from repository.go: the two-source merge with the user
partition first when ascending and the built-in partition first when
descending. -/
def ListMoods (db : DB) (userId : String) (args : ListArgs) :
    Except RepoError (List Mood × Bool) :=
  if sortAsc args then
    mergeListMoods (userMoodSource db userId) listBuiltinMoods "user" "built-in" true args
  else
    mergeListMoods listBuiltinMoods (userMoodSource db userId) "built-in" "user" false args

/-- `GetMood` from repository.go: an exact, case-sensitive scan of the
catalog first, then `findMood`; an absent row is `none`, not an error. -/
def GetMood (db : DB) (userId name : String) : Except RepoError (Option Mood) :=
  match builtinMoods.find? (fun b => b.name == name) with
  | some b => .ok (some b)
  | none =>
    match findMood db userId name with
    | none => .ok none
    | some m => .ok (some (rowToMood m))

/-- The fresh serial a store insert would assign: one past the largest
mood id (sequence assignment is delegated to the store). -/
def nextMoodId (db : DB) : Int :=
  (db.moods.foldl (fun acc m => max acc m.id) 0) + 1

/-- The `setMood` upsert statement: update the display columns of the
case-insensitively matching row, else insert a fresh row with the name
lowercased. -/
def upsertMood (db : DB) (userId : String) (mood : Mood) : DB :=
  if db.moods.any (fun m => m.userId == userId && (strLower m.name) == (strLower mood.name)) then
    { db with moods := db.moods.map (fun m =>
        if m.userId == userId && (strLower m.name) == (strLower mood.name) then
          { m with eyes := mood.eyes, tongue := mood.tongue }
        else m) }
  else
    { db with moods := db.moods ++ [⟨nextMoodId db, userId, (strLower mood.name), mood.eyes, mood.tongue⟩] }

/-- `SetMood` from repository.go: built-in names are rejected before any
store access; otherwise the upsert runs. -/
def SetMood (db : DB) (userId : String) (mood : Mood) : Except RepoError DB :=
  if isBuiltin mood.name then .error .builtinMood
  else .ok (upsertMood db userId mood)

/-- Ordering of `lines` rows by their sequence id. -/
def lineRowLE (a b : LineRow) : Prop := a.id ≤ b.id

instance : DecidableRel lineRowLE := fun a b => inferInstanceAs (Decidable (a.id ≤ b.id))

instance : IsTotal LineRow lineRowLE := ⟨fun a b => le_total a.id b.id⟩

instance : IsTrans LineRow lineRowLE := ⟨fun _ _ _ hab hbc => le_trans hab hbc⟩

/-- The `findMoodLines` statement: `lines LEFT JOIN moods ON
lines.mood_id = moods.id WHERE user_id = :user_id AND mood_name = :name
ORDER BY lines.id ASC`, selecting `public_id`. The `WHERE` on the joined
`user_id` discards rows whose join produced nulls, so this behaves as an
inner join; the match on `mood_name` is exact. -/
def findMoodLines (db : DB) (userId name : String) : List String :=
  (List.insertionSort lineRowLE (db.lines.filter (fun l =>
    db.moods.any (fun m => some m.id == l.moodId && m.userId == userId) &&
      l.moodName == name))).map (·.publicId)

/-- The mood rows the `deleteMood` statement would delete: owner match
plus case-insensitive name match. -/
def matchedMoods (db : DB) (userId name : String) : List MoodRow :=
  db.moods.filter (fun m => m.userId == userId && (strLower m.name) == (strLower name))

/-- Whether some line still references one of the rows the delete would
remove; this is when the store raises its foreign-key violation. -/
def moodReferenced (db : DB) (userId name : String) : Bool :=
  db.lines.any (fun l => (matchedMoods db userId name).any (fun m => l.moodId == some m.id))

/-- The store after a successful mood delete. -/
def removeMood (db : DB) (userId name : String) : DB :=
  { db with moods := db.moods.filter (fun m =>
      !(m.userId == userId && (strLower m.name) == (strLower name))) }

/-- `DeleteMood` from repository.go on top of the relational model of the
store: built-in guard first, then `doDelete` (zero rows affected is
`recordNotFound`, a foreign-key violation triggers the best-effort
`findMoodLines` lookup and a conflict error, anything else deletes). -/
def DeleteMood (db : DB) (userId name : String) : Except RepoError DB :=
  if isBuiltin name then .error .builtinMood
  else if (matchedMoods db userId name).isEmpty then .error .recordNotFound
  else if moodReferenced db userId name then
    .error (.conflict (findMoodLines db userId name))
  else .ok (removeMood db userId name)

/-- A line value object, mirroring the Go `Line` struct; `mood` is the
private nilable pointer set by `setLineMood`. -/
structure Line where
  ID : String
  animal : String
  think : Bool
  text : String
  moodName : String
  mood : Option Mood
deriving Repr, DecidableEq

/-- A conversation value object, mirroring the Go `Conversation`. -/
structure Conversation where
  ID : String
  heading : String
  lines : List Line
  id : Int
deriving Repr, DecidableEq

/-- The scan target of the line queries (Go `lineRec`): the possibly-null
joined display columns plus the line itself. -/
structure LineQueryRec where
  eyes : Option String
  tongue : Option String
  line : Line
deriving Repr, DecidableEq

/-- `setLineMood` from repository.go: a non-null `eyes` column marks a
user-defined mood built from the row (a null `tongue` scans as the empty
string); otherwise the denormalized mood name is matched case-
insensitively against the catalog; on no match the `mood` field is left
untouched (nil for a freshly scanned record). -/
def setLineMood (r : LineQueryRec) : LineQueryRec :=
  match r.eyes with
  | some e =>
    { r with line := { r.line with mood := some ⟨r.line.moodName, e, r.tongue.getD "", true, 0⟩ } }
  | none =>
    match builtinMoods.find? (fun m => eqFold m.name r.line.moodName) with
    | some m => { r with line := { r.line with mood := some m } }
    | none => r

/-- The `getConvo` statement: first conversation row with this owner and
public id. -/
def getConvoRow (db : DB) (userId publicId : String) : Option ConvoRow :=
  db.conversations.find? (fun c => c.userId == userId && c.publicId == publicId)

/-- The row a line scan produces: `LEFT JOIN moods ON lines.mood_id =
moods.id` gives null display columns when `mood_id` is null or matches no
mood row. -/
def mkLineRec (db : DB) (l : LineRow) : LineQueryRec :=
  let joined : Option MoodRow := match l.moodId with
    | some mid => db.moods.find? (fun m => m.id == mid)
    | none => none
  { eyes := joined.map (·.eyes), tongue := joined.map (·.tongue),
    line := ⟨l.publicId, l.animal, l.think, l.text, l.moodName, none⟩ }

/-- `GetLine` from repository.go: the `getLine` join scoped by owner,
conversation and line public id, then mood resolution; an unresolvable
mood is a fatal error, an absent row is `none`. -/
def GetLine (db : DB) (userId convoId lineId : String) : Except RepoError (Option Line) :=
  match getConvoRow db userId convoId with
  | none => .ok none
  | some convo =>
    match db.lines.find? (fun l => l.conversationId == convo.id && l.publicId == lineId) with
    | none => .ok none
    | some l =>
      let r := setLineMood (mkLineRec db l)
      match r.line.mood with
      | none => .error (.storeErr ("Line " ++ r.line.ID ++ " does not have a valid mood"))
      | some _ => .ok (some r.line)

/-- The `findConvoLines` statement: the lines of a conversation ordered
by their sequence id. -/
def linesForConvo (db : DB) (convoIntId : Int) : List LineRow :=
  List.insertionSort lineRowLE (db.lines.filter (fun l => l.conversationId == convoIntId))

/-- The scan loop of `GetConversation`: resolve each mood in order, and
fail on the first line whose mood resolves to neither source. -/
def buildLines : List LineQueryRec → Except RepoError (List Line)
  | [] => .ok []
  | r0 :: rest =>
    let r := setLineMood r0
    match r.line.mood with
    | none => .error (.storeErr ("line " ++ r.line.ID ++ " does not have a valid mood"))
    | some _ =>
      match buildLines rest with
      | .error e => .error e
      | .ok ls => .ok (r.line :: ls)

/-- `GetConversation` from repository.go: look up the conversation and
assemble its lines in sequence order. -/
def GetConversation (db : DB) (userId convoId : String) :
    Except RepoError (Option Conversation) :=
  match getConvoRow db userId convoId with
  | none => .ok none
  | some convo =>
    match buildLines ((linesForConvo db convo.id).map (mkLineRec db)) with
    | .error e => .error e
    | .ok ls => .ok (some ⟨convo.publicId, convo.heading, ls, convo.id⟩)

/-- The outcome the store reports for one insert attempt: success with
the assigned serial, a uniqueness-constraint violation (pq code 23505),
or any other failure. -/
inductive InsertOutcome where
  | ok (id : Int)
  | dupUnique
  | otherErr (msg : String)
deriving Repr, DecidableEq

/-- `maxInsertRetries` from repository.go. -/
def maxInsertRetries : Nat := 16

/-- The `cv_` public id tag of conversations. -/
def convoIDTag : String := "cv_"

/-- The `ln_` public id tag of lines. -/
def lineIDTag : String := "ln_"

/-- One base-36 digit, as produced by `strconv.FormatUint(v, 36)`. -/
def base36Digit (n : Nat) : Char :=
  if n < 10 then Char.ofNat (48 + n) else Char.ofNat (87 + n)

/-- Digit expansion for `toBase36`; the fuel argument dominates the
number of divisions. -/
def toBase36Core (fuel n : Nat) : List Char :=
  match fuel with
  | 0 => []
  | fuel + 1 => if n == 0 then [] else toBase36Core fuel (n / 36) ++ [base36Digit (n % 36)]

/-- `strconv.FormatUint(v, 36)`. -/
def toBase36 (n : Nat) : String :=
  if n == 0 then "0" else String.mk (toBase36Core (n + 1) n)

/-- The shared shape of the two insert retry loops (`NewConversation`
lines 486-509 and `InsertLine` lines 567-600): draw a random value
uniform in `[0, 2^63 - 1)` from the stream, render it in base 36 behind
the type tag, and attempt the insert; a uniqueness violation retries with
the next random value, any other store failure aborts wrapped, and
exhausting the attempts yields the generation-exhausted error. The second
component records every public id attempted, in order. -/
def insertIDLoop (tag ctx : String) (store : String → InsertOutcome)
    (rng : Nat → Nat) : Nat → Nat → Except RepoError (String × Int) × List String
  | 0, _ => (.error .generationExhausted, [])
  | fuel + 1, i =>
    let rv := rng i % 9223372036854775807
    let pid := tag ++ toBase36 rv
    match store pid with
    | .ok id => (.ok (pid, id), [pid])
    | .dupUnique =>
      let rest := insertIDLoop tag ctx store rng fuel (i + 1)
      (rest.1, pid :: rest.2)
    | .otherErr msg => (.error (.wrapped ctx (.storeErr msg)), [pid])

/-- `NewConversation` from repository.go, over the store insert oracle
and the random stream; alongside the result, the attempted public ids. -/
def NewConversation (store : String → InsertOutcome) (rng : Nat → Nat)
    (heading : String) : Except RepoError Conversation × List String :=
  match insertIDLoop convoIDTag "inserting conversation" store rng maxInsertRetries 0 with
  | (.ok (pid, id), attempts) => (.ok ⟨pid, heading, [], id⟩, attempts)
  | (.error e, attempts) => (.error e, attempts)

/-- `InsertLine` from repository.go: the conversation is resolved first
(any failure there, including no rows, aborts wrapped), then the retry
loop runs with the `ln_` tag; on success the line gets its public id. -/
def InsertLine (db : DB) (store : String → InsertOutcome) (rng : Nat → Nat)
    (userId convoId : String) (line : Line) : Except RepoError Line × List String :=
  match getConvoRow db userId convoId with
  | none => (.error (.wrapped "finding conversation" (.storeErr "sql: no rows in result set")), [])
  | some _ =>
    match insertIDLoop lineIDTag "inserting line" store rng maxInsertRetries 0 with
    | (.ok (pid, _), attempts) => (.ok { line with ID := pid }, attempts)
    | (.error e, attempts) => (.error e, attempts)

/-- Forward pagination driver: call `ListMoods` ascending starting after
the given cursor, and follow `hasMore` using the last returned mood name
as the next cursor. `none` on an error, an empty page with `hasMore`, or
fuel exhaustion. -/
def pageForward (db : DB) (userId : String) (limit : Nat) :
    Nat → String → Option (List Mood)
  | 0, _ => none
  | fuel + 1, after =>
    match ListMoods db userId ⟨"", after, limit⟩ with
    | .error _ => none
    | .ok (ms, hasMore) =>
      if hasMore then
        match ms.getLast? with
        | none => none
        | some last =>
          match pageForward db userId limit fuel last.name with
          | none => none
          | some rest => some (ms ++ rest)
      else some ms

/-- Backward pagination driver: call `ListMoods` descending starting
before the given cursor, following `hasMore` likewise. -/
def pageBackward (db : DB) (userId : String) (limit : Nat) :
    Nat → String → Option (List Mood)
  | 0, _ => none
  | fuel + 1, before =>
    match ListMoods db userId ⟨before, "", limit⟩ with
    | .error _ => none
    | .ok (ms, hasMore) =>
      if hasMore then
        match ms.getLast? with
        | none => none
        | some last =>
          match pageBackward db userId limit fuel last.name with
          | none => none
          | some rest => some (ms ++ rest)
      else some ms

/-- Modelled from the spec: the public ids of the lines referencing the
named mood of this owner, in line-sequence order ("for moods: all lines
naming that mood for that user") — the set the conflict error is claimed
to carry. The name of the mood is matched case-insensitively, as every
other mood lookup of the repository does. -/
def referencingLineIds (db : DB) (userId name : String) : List String :=
  (List.insertionSort lineRowLE (db.lines.filter (fun l =>
    db.moods.any (fun m => m.userId == userId && (strLower m.name) == (strLower name) &&
      l.moodId == some m.id)))).map (·.publicId)

deriving instance DecidableEq for Except

/-- An owner with a single user-defined mood. -/
def oneMoodDB : DB := ⟨[⟨1, "u", "happy", "^^", "--"⟩], [], []⟩

/-- An owner with two user-defined moods, as in the spec scenario. -/
def twoMoodDB : DB := ⟨[⟨1, "u", "happy", "^^", "  "⟩, ⟨2, "u", "sleepy", "--", "  "⟩], [], []⟩

/-- An owner who created the mood "zebra" before the mood "apple". -/
def zebraAppleDB : DB := ⟨[⟨1, "u", "zebra", "..", "  "⟩, ⟨2, "u", "apple", "..", "  "⟩], [], []⟩

/-- A store with no user-defined moods. -/
def emptyDB : DB := ⟨[], [], []⟩

/-- C1: the claim predicts that `ListMoods` with no cursor returns
`min(L, total)` items. The code evaluates the full-page early return
after already reducing the limit, so an owner with one user mood and
limit 2 gets a single item back (with `hasMore = true`) although
`min(2, 1 + 8) = 2`: the claim fails on the code. -/
theorem listMoods_count_bug_eval :
    ListMoods oneMoodDB "u" ⟨"", "", 2⟩ = .ok ([⟨"happy", "^^", "--", true, 1⟩], true)
    ∧ ([(⟨"happy", "^^", "--", true, 1⟩ : Mood)]).length ≠
        min 2 (oneMoodDB.moods.length + builtinMoods.length) := by
  exact ⟨by decide, by decide⟩

/-- C2: the claim predicts the early return happens exactly when
partition 1 alone yields a full page of `limit` items. On an owner with
two user moods and limit 4, partition 1 yields only 2 items and reports
no overflow, yet the merge returns just those two with `hasMore = true`
and never consults the built-in partition (no catalog mood in the
result): the early-return test runs against the already reduced limit. -/
theorem merge_early_return_bug_eval :
    listUserMoods twoMoodDB "u" true ⟨"", "", 4⟩ =
      .ok ([⟨"happy", "^^", "  ", true, 1⟩, ⟨"sleepy", "--", "  ", true, 2⟩], false)
    ∧ ListMoods twoMoodDB "u" ⟨"", "", 4⟩ =
      .ok ([⟨"happy", "^^", "  ", true, 1⟩, ⟨"sleepy", "--", "  ", true, 2⟩], true) := by
  exact ⟨by decide, by decide⟩

/-- C6: forward pagination with limit 1 over an owner with no user moods
enumerates the whole catalog, but paginating backward from the last
item "young" stops after a single page `[wired]` with `hasMore = false`
(the built-in partition's own overflow flag is discarded and the empty
user partition reports no more), so the backward traversal misses
tired, stoned, greedy, dead, borg and default: the claimed symmetry
fails on the code. -/
theorem pagination_symmetry_bug_eval :
    pageForward emptyDB "u" 1 20 "" = some builtinMoods
    ∧ pageBackward emptyDB "u" 1 20 "young" = some [⟨"wired", "OO", "  ", false, 0⟩]
    ∧ ((⟨"young", "..", "  ", false, 0⟩ : Mood) :: [(⟨"wired", "OO", "  ", false, 0⟩ : Mood)])
        ≠ builtinMoods.reverse := by
  exact ⟨by decide, by decide, by decide⟩

/-- Modelled from the spec: alphabetical comparison of two character
lists, for the claimed "alphabetical, case-insensitive" ordering of the
user-mood partition. -/
def charListLe : List Char → List Char → Bool
  | [], _ => true
  | _ :: _, [] => false
  | a :: as, b :: bs => if a = b then charListLe as bs else decide (a < b)

/-- Modelled from the spec: case-insensitive alphabetical order on mood
names. -/
def alphaLe (a b : String) : Bool := charListLe (strLower a).data (strLower b).data

/-- C4, counterexample: an ascending no-cursor listing for an owner who
created "zebra" before "apple" yields the user moods as
`[zebra, apple]` — ordered by internal sequence id, not alphabetically,
since "zebra" does not precede "apple" in case-insensitive alphabetical
order. -/
theorem listMoods_not_alphabetical_cex :
    ListMoods zebraAppleDB "u" ⟨"", "", 10⟩ =
      .ok (⟨"zebra", "..", "  ", true, 1⟩ :: ⟨"apple", "..", "  ", true, 2⟩ :: builtinMoods, false)
    ∧ ¬ List.Sorted (fun a b : Mood => alphaLe a.name b.name = true)
        [⟨"zebra", "..", "  ", true, 1⟩, ⟨"apple", "..", "  ", true, 2⟩] := by
  exact ⟨by decide, by decide⟩

/-- C10: for a built-in mood name written in non-canonical casing, the
case-insensitive guard makes `SetMood` and `DeleteMood` fail with the
built-in-protected error, while `GetMood` scans the catalog with exact
equality, misses, and — as the guard prevents any user mood from ever
carrying a built-in name, captured by the invariant hypothesis — returns
no mood and no error. -/
theorem getMood_case_mismatch (db : DB) (u name : String) (mood : Mood)
    (hinv : ∀ m ∈ db.moods, isBuiltin m.name = false)
    (hb : isBuiltin name = true)
    (hexact : builtinMoods.find? (fun b => b.name == name) = none)
    (hname : mood.name = name) :
    SetMood db u mood = .error .builtinMood
    ∧ DeleteMood db u name = .error .builtinMood
    ∧ GetMood db u name = .ok none := by
  refine ⟨?_, ?_, ?_⟩
  · simp [SetMood, hname, hb]
  · simp [DeleteMood, hb]
  · have hfind : findMood db u name = none := by
      rw [findMood, List.find?_eq_none]
      intro m hm hcond
      rcases Bool.and_eq_true .. |>.mp hcond with ⟨-, hlow⟩
      have hlow' : strLower m.name = strLower name := by
        exact (beq_iff_eq ..).mp hlow
      rcases (List.any_eq_true).mp hb with ⟨b, hbmem, hfold⟩
      have : isBuiltin m.name = true := by
        refine (List.any_eq_true).mpr ⟨b, hbmem, ?_⟩
        have hfold' : strLower b.name = strLower name := (beq_iff_eq ..).mp hfold
        simp [eqFold, hfold', hlow']
      simp [hinv m hm] at this
    simp [GetMood, hexact, hfind]

/-- A store recording an unrelated user mood "foo". -/
def fooMoodDB : DB := ⟨[⟨1, "u", "foo", "oo", "  "⟩], [], []⟩

/-- Witness for the C10 theorem at the name "Default". -/
theorem getMood_case_mismatch_witness :
    SetMood fooMoodDB "u" ⟨"Default", "xx", "  ", false, 0⟩ = .error .builtinMood
    ∧ DeleteMood fooMoodDB "u" "Default" = .error .builtinMood
    ∧ GetMood fooMoodDB "u" "Default" = .ok none :=
  getMood_case_mismatch fooMoodDB "u" "Default" ⟨"Default", "xx", "  ", false, 0⟩
    (by decide) (by decide) (by decide) rfl

/-- The public id the retry loop generates on attempt `i`. -/
def attemptId (tag : String) (rng : Nat → Nat) (i : Nat) : String :=
  tag ++ toBase36 (rng i % 9223372036854775807)

theorem insertIDLoop_shape (tag ctx : String) (store : String → InsertOutcome)
    (rng : Nat → Nat) :
    ∀ fuel i, ∀ pid ∈ (insertIDLoop tag ctx store rng fuel i).2,
      ∃ v, v < 9223372036854775807 ∧ pid = tag ++ toBase36 v := by
  intro fuel
  induction fuel with
  | zero => intro i pid h; simp [insertIDLoop] at h
  | succ n ih =>
    intro i pid h
    have hlt : rng i % 9223372036854775807 < 9223372036854775807 :=
      Nat.mod_lt _ (by decide)
    cases hs : store (tag ++ toBase36 (rng i % 9223372036854775807)) with
    | ok id =>
      simp [insertIDLoop, hs] at h
      exact ⟨_, hlt, h⟩
    | dupUnique =>
      simp [insertIDLoop, hs] at h
      rcases h with h | h
      · exact ⟨_, hlt, h⟩
      · exact ih (i + 1) pid h
    | otherErr msg =>
      simp [insertIDLoop, hs] at h
      exact ⟨_, hlt, h⟩

theorem insertIDLoop_dropLast (tag ctx : String) (store : String → InsertOutcome)
    (rng : Nat → Nat) :
    ∀ fuel i, ∀ pid ∈ ((insertIDLoop tag ctx store rng fuel i).2).dropLast,
      store pid = .dupUnique := by
  intro fuel
  induction fuel with
  | zero => intro i pid h; simp [insertIDLoop] at h
  | succ n ih =>
    intro i pid h
    cases hs : store (tag ++ toBase36 (rng i % 9223372036854775807)) with
    | ok id => simp [insertIDLoop, hs] at h
    | otherErr msg => simp [insertIDLoop, hs] at h
    | dupUnique =>
      rcases hrest : (insertIDLoop tag ctx store rng n (i + 1)).2 with - | ⟨a, as⟩
      · simp [insertIDLoop, hs, hrest] at h
      · simp only [insertIDLoop, hs, hrest, List.dropLast_cons₂, List.mem_cons] at h
        rcases h with h | h
        · rw [h]; exact hs
        · exact ih (i + 1) pid (by rw [hrest]; exact h)

theorem insertIDLoop_alldup (tag ctx : String) (store : String → InsertOutcome)
    (rng : Nat → Nat) (h : ∀ s, store s = .dupUnique) :
    ∀ fuel i, (insertIDLoop tag ctx store rng fuel i).1 = .error .generationExhausted
      ∧ (insertIDLoop tag ctx store rng fuel i).2.length = fuel := by
  intro fuel
  induction fuel with
  | zero => intro i; simp [insertIDLoop]
  | succ n ih =>
    intro i
    have := ih (i + 1)
    simp [insertIDLoop, h, this.1, this.2]

theorem insertIDLoop_abort (tag ctx : String) (store : String → InsertOutcome)
    (rng : Nat → Nat) (fuel i : Nat) (msg : String)
    (hs : store (attemptId tag rng i) = .otherErr msg) (hfuel : 0 < fuel) :
    insertIDLoop tag ctx store rng fuel i =
      (.error (.wrapped ctx (.storeErr msg)), [attemptId tag rng i]) := by
  cases fuel with
  | zero => exact absurd hfuel (by simp)
  | succ n => simp [insertIDLoop, attemptId] at hs ⊢; simp [hs]

theorem NewConversation_attempts (store : String → InsertOutcome) (rng : Nat → Nat)
    (heading : String) :
    (NewConversation store rng heading).2 =
      (insertIDLoop convoIDTag "inserting conversation" store rng maxInsertRetries 0).2 := by
  rcases h : insertIDLoop convoIDTag "inserting conversation" store rng maxInsertRetries 0
    with ⟨res, atts⟩
  rcases res with e | ⟨pid, id⟩ <;> simp [NewConversation, h]

theorem NewConversation_error (store : String → InsertOutcome) (rng : Nat → Nat)
    (heading : String) (e : RepoError)
    (h : (insertIDLoop convoIDTag "inserting conversation" store rng maxInsertRetries 0).1
      = .error e) :
    (NewConversation store rng heading).1 = .error e := by
  rcases hl : insertIDLoop convoIDTag "inserting conversation" store rng maxInsertRetries 0
    with ⟨res, atts⟩
  rw [hl] at h
  rcases res with e' | ⟨pid, id⟩
  · simp at h
    subst h
    simp [NewConversation, hl]
  · simp at h

theorem InsertLine_error (db : DB) (store : String → InsertOutcome) (rng : Nat → Nat)
    (u convoId : String) (line : Line) (c : ConvoRow) (e : RepoError)
    (hc : getConvoRow db u convoId = some c)
    (h : (insertIDLoop lineIDTag "inserting line" store rng maxInsertRetries 0).1
      = .error e) :
    (InsertLine db store rng u convoId line).1 = .error e := by
  rcases hl : insertIDLoop lineIDTag "inserting line" store rng maxInsertRetries 0
    with ⟨res, atts⟩
  rw [hl] at h
  rcases res with e' | ⟨pid, id⟩
  · simp at h
    subst h
    simp [InsertLine, hc, hl]
  · simp at h

/-- C7: the public-id generation contract of `NewConversation` and
`InsertLine`. Every attempted identifier is the type tag followed by the
base-36 rendering of a value below `2^63 - 1`; every attempt that was
followed by another one had hit the uniqueness violation (so only
collisions are retried); a non-uniqueness store error on the current
attempt aborts at once with that single attempt recorded; and a store
that reports a collision on every attempt drives both operations into
the generation-exhausted error after exactly 16 attempts. -/
theorem generated_id_retry_contract (store : String → InsertOutcome) (rng : Nat → Nat)
    (db : DB) (u heading convoId : String) (line : Line) :
    (∀ pid ∈ (NewConversation store rng heading).2,
        ∃ v, v < 9223372036854775807 ∧ pid = convoIDTag ++ toBase36 v)
    ∧ (∀ pid ∈ ((NewConversation store rng heading).2).dropLast, store pid = .dupUnique)
    ∧ (∀ msg, store (attemptId convoIDTag rng 0) = .otherErr msg →
        NewConversation store rng heading =
          (.error (.wrapped "inserting conversation" (.storeErr msg)),
            [attemptId convoIDTag rng 0]))
    ∧ ((∀ s, store s = .dupUnique) →
        (NewConversation store rng heading).1 = .error .generationExhausted
        ∧ (NewConversation store rng heading).2.length = 16)
    ∧ (∀ pid ∈ (InsertLine db store rng u convoId line).2,
        ∃ v, v < 9223372036854775807 ∧ pid = lineIDTag ++ toBase36 v)
    ∧ (∀ pid ∈ ((InsertLine db store rng u convoId line).2).dropLast,
        store pid = .dupUnique)
    ∧ ((∀ s, store s = .dupUnique) → (getConvoRow db u convoId).isSome = true →
        (InsertLine db store rng u convoId line).1 = .error .generationExhausted
        ∧ (InsertLine db store rng u convoId line).2.length = 16) := by
  have hattsIL : ∀ c, getConvoRow db u convoId = some c →
      (InsertLine db store rng u convoId line).2 =
        (insertIDLoop lineIDTag "inserting line" store rng maxInsertRetries 0).2 := by
    intro c hc
    rcases h : insertIDLoop lineIDTag "inserting line" store rng maxInsertRetries 0
      with ⟨res, atts⟩
    rcases res with e | ⟨pid, id⟩ <;> simp [InsertLine, hc, h]
  refine ⟨?_, ?_, ?_, ?_, ?_, ?_, ?_⟩
  · intro pid h
    rw [NewConversation_attempts] at h
    exact insertIDLoop_shape _ _ store rng _ _ pid h
  · intro pid h
    rw [NewConversation_attempts] at h
    exact insertIDLoop_dropLast _ _ store rng _ _ pid h
  · intro msg hmsg
    have hl := insertIDLoop_abort convoIDTag "inserting conversation" store rng
      maxInsertRetries 0 msg hmsg (by decide)
    simp [NewConversation, hl]
  · intro hdup
    have h := insertIDLoop_alldup convoIDTag "inserting conversation" store rng hdup
      maxInsertRetries 0
    refine ⟨NewConversation_error store rng heading _ h.1, ?_⟩
    rw [NewConversation_attempts, h.2]
    rfl
  · intro pid h
    rcases hc : getConvoRow db u convoId with - | c
    · simp [InsertLine, hc] at h
    · rw [hattsIL c hc] at h
      exact insertIDLoop_shape _ _ store rng _ _ pid h
  · intro pid h
    rcases hc : getConvoRow db u convoId with - | c
    · simp [InsertLine, hc] at h
    · rw [hattsIL c hc] at h
      exact insertIDLoop_dropLast _ _ store rng _ _ pid h
  · intro hdup hsome
    rcases hc : getConvoRow db u convoId with - | c
    · rw [hc] at hsome; simp at hsome
    · have h := insertIDLoop_alldup lineIDTag "inserting line" store rng hdup
        maxInsertRetries 0
      refine ⟨InsertLine_error db store rng u convoId line c _ hc h.1, ?_⟩
      rw [hattsIL c hc, h.2]
      rfl

/-- A store holding one conversation and nothing else. -/
def convoDB : DB := ⟨[], [⟨1, "cv_x", "u", "trip"⟩], []⟩

/-- A line value as the handler would pass it to `InsertLine`. -/
def sampleLine : Line := ⟨"", "cow", false, "hello", "default", none⟩

/-- Witness for the C7 theorem: a store colliding on every attempt drives
both operations into the generation-exhausted error after 16 attempts. -/
theorem generated_id_retry_contract_witness :
    (NewConversation (fun _ => .dupUnique) (fun n => n) "trip").1
        = .error .generationExhausted
    ∧ (NewConversation (fun _ => .dupUnique) (fun n => n) "trip").2.length = 16
    ∧ (InsertLine convoDB (fun _ => .dupUnique) (fun n => n) "u" "cv_x" sampleLine).1
        = .error .generationExhausted := by
  obtain ⟨-, -, -, h4, -, -, h7⟩ :=
    generated_id_retry_contract (fun _ => .dupUnique) (fun n => n) convoDB "u" "trip"
      "cv_x" sampleLine
  exact ⟨(h4 (fun _ => rfl)).1, (h4 (fun _ => rfl)).2, (h7 (fun _ => rfl) (by decide)).1⟩

theorem scanBuiltins_found (c : String) :
    ∀ (l : List Mood) (rem : Nat), (scanBuiltins c l true rem).2 = true := by
  intro l
  induction l with
  | nil => intro rem; rfl
  | cons m rest ih =>
    intro rem
    by_cases h : (rem == 1) = true <;> simp [scanBuiltins, h, ih]

theorem listUserMoods_cleared (db : DB) (u : String) (asc : Bool) (L : Nat) :
    ∀ e, listUserMoods db u asc ⟨"", "", L⟩ ≠ .error e := by
  cases asc <;> intro e h <;> simp [listUserMoods] at h

theorem listBuiltinMoods_cleared (asc : Bool) (L : Nat) :
    ∀ e, listBuiltinMoods asc ⟨"", "", L⟩ ≠ .error e := by
  cases asc <;> intro e h <;>
    simp [listBuiltinMoods, scanBuiltins_found] at h

/-- C5: the cursor fallback contract of the merge. A cursor-not-found
from the first source leaves `args` untouched — the second source is
consulted with the original cursor and undiminished limit (this is
exactly `mergeSecond` applied to the original `args` and no collected
moods); any other first-source failure is returned at once, wrapped with
the source name; and the full `ListMoods` call reports cursor-not-found
exactly when both partitions, each asked with the original arguments,
report cursor-not-found. -/
theorem listMoods_cursor_fallback (db : DB) (u : String) (args : ListArgs)
    (src1 src2 : MoodSource) (n1 n2 : String) (asc : Bool) :
    (src1 asc args = .error .cursorNotFound →
      mergeListMoods src1 src2 n1 n2 asc args = mergeSecond src2 n2 asc args [])
    ∧ (∀ e, e ≠ .cursorNotFound → src1 asc args = .error e →
      mergeListMoods src1 src2 n1 n2 asc args =
        .error (.wrapped ("listing " ++ n1 ++ " moods") e))
    ∧ (ListMoods db u args = .error .cursorNotFound ↔
      ((if sortAsc args then userMoodSource db u else listBuiltinMoods) (sortAsc args) args
          = .error .cursorNotFound
        ∧ (if sortAsc args then listBuiltinMoods else userMoodSource db u) (sortAsc args) args
          = .error .cursorNotFound)) := by
  refine ⟨?_, ?_, ?_⟩
  · intro h
    simp [mergeListMoods, h]
  · intro e he h
    have hne : (e != RepoError.cursorNotFound) = true := by
      simpa using he
    simp [mergeListMoods, h, hne]
  · by_cases hdir : sortAsc args
    · simp only [ListMoods, hdir, if_true]
      rcases h1 : userMoodSource db u true args with e1 | ⟨moods, b⟩
      · by_cases he1 : e1 = RepoError.cursorNotFound
        · subst he1
          rcases h2 : listBuiltinMoods true args with e2 | p2
          · by_cases he2 : e2 = RepoError.cursorNotFound
            · subst he2
              simp [mergeListMoods, mergeSecond, h1, h2, hdir]
            · have hne2 : (e2 != RepoError.cursorNotFound) = true := by simpa using he2
              simp [mergeListMoods, mergeSecond, h1, h2, hdir, hne2, he2]
          · simp [mergeListMoods, mergeSecond, h1, h2, hdir]
        · have hne1 : (e1 != RepoError.cursorNotFound) = true := by simpa using he1
          simp [mergeListMoods, h1, hdir, hne1, he1]
      · by_cases hearly : (moods.length == args.limit - moods.length) = true
        · simp [mergeListMoods, h1, hdir, hearly]
        · rcases h2 : listBuiltinMoods true (⟨"", "", args.limit - moods.length⟩ : ListArgs)
            with e2 | p2
          · exact absurd h2 (listBuiltinMoods_cleared true _ e2)
          · simp [mergeListMoods, mergeSecond, h1, h2, hdir, hearly]
    · simp only [ListMoods, hdir, if_false, Bool.not_eq_true] at hdir ⊢
      rcases h1 : listBuiltinMoods false args with e1 | ⟨moods, b⟩
      · by_cases he1 : e1 = RepoError.cursorNotFound
        · subst he1
          rcases h2 : userMoodSource db u false args with e2 | p2
          · by_cases he2 : e2 = RepoError.cursorNotFound
            · subst he2
              simp [mergeListMoods, mergeSecond, h1, h2, hdir]
            · have hne2 : (e2 != RepoError.cursorNotFound) = true := by simpa using he2
              simp [mergeListMoods, mergeSecond, h1, h2, hdir, hne2, he2]
          · simp [mergeListMoods, mergeSecond, h1, h2, hdir]
        · have hne1 : (e1 != RepoError.cursorNotFound) = true := by simpa using he1
          simp [mergeListMoods, h1, hdir, hne1, he1]
      · by_cases hearly : (moods.length == args.limit - moods.length) = true
        · simp [mergeListMoods, h1, hdir, hearly]
        · rcases h2 : userMoodSource db u false (⟨"", "", args.limit - moods.length⟩ : ListArgs)
            with e2 | p2
          · exact absurd h2 (listUserMoods_cleared db u false _ e2)
          · simp [mergeListMoods, mergeSecond, h1, h2, hdir, hearly]

/-- Witness for the C5 theorem: a first source failing with
cursor-not-found hands the original arguments to the second source, and
a first source failing otherwise wraps that error. -/
theorem listMoods_cursor_fallback_witness :
    mergeListMoods (fun _ _ => .error .cursorNotFound) (fun _ _ => .ok ([], false))
        "user" "built-in" true ⟨"", "x", 5⟩
      = mergeSecond (fun _ _ => .ok ([], false)) "built-in" true ⟨"", "x", 5⟩ []
    ∧ mergeListMoods (fun _ _ => .error (.storeErr "boom")) (fun _ _ => .ok ([], false))
        "user" "built-in" true ⟨"", "x", 5⟩
      = .error (.wrapped "listing user moods" (.storeErr "boom")) := by
  refine ⟨?_, ?_⟩
  · exact (listMoods_cursor_fallback emptyDB "u" ⟨"", "x", 5⟩
      (fun _ _ => .error .cursorNotFound) (fun _ _ => .ok ([], false))
      "user" "built-in" true).1 rfl
  · exact (listMoods_cursor_fallback emptyDB "u" ⟨"", "x", 5⟩
      (fun _ _ => .error (.storeErr "boom")) (fun _ _ => .ok ([], false))
      "user" "built-in" true).2.1 (.storeErr "boom") (by decide) rfl

theorem moodQueryRows_sorted_asc (db : DB) (u : String) (cid : Int) (lim : Nat) :
    List.Sorted moodRowLE (moodQueryRows db u true cid lim) := by
  simp only [moodQueryRows, if_true]
  exact (List.sorted_insertionSort moodRowLE _).sublist (List.take_sublist _ _)

theorem moodQueryRows_sorted_desc (db : DB) (u : String) (cid : Int) (lim : Nat) :
    List.Sorted (fun a b => moodRowLE b a) (moodQueryRows db u false cid lim) := by
  simp only [moodQueryRows, Bool.false_eq_true, if_false]
  refine List.Pairwise.sublist (List.take_sublist _ _) ?_
  exact List.pairwise_reverse.mpr (List.sorted_insertionSort moodRowLE _)

theorem listUserMoods_sorted_asc (db : DB) (u : String) (args : ListArgs)
    (ms : List Mood) (b : Bool) (h : listUserMoods db u true args = .ok (ms, b)) :
    List.Sorted (fun a c : Mood => a.id ≤ c.id) ms := by
  simp only [listUserMoods] at h
  split at h
  · exact absurd h (by simp)
  · rename_i cursorId heq
    rw [Except.ok.injEq, Prod.mk.injEq] at h
    obtain ⟨hms, -⟩ := h
    have base : List.Sorted (fun a c : Mood => a.id ≤ c.id)
        ((moodQueryRows db u true cursorId (args.limit + 1)).map rowToMood) := by
      rw [List.Sorted, List.pairwise_map]
      exact moodQueryRows_sorted_asc db u cursorId (args.limit + 1)
    rw [← hms]
    split
    · exact base.sublist (List.take_sublist _ _)
    · exact base

theorem listUserMoods_sorted_desc (db : DB) (u : String) (args : ListArgs)
    (ms : List Mood) (b : Bool) (h : listUserMoods db u false args = .ok (ms, b)) :
    List.Sorted (fun a c : Mood => c.id ≤ a.id) ms := by
  simp only [listUserMoods] at h
  split at h
  · exact absurd h (by simp)
  · rename_i cursorId heq
    rw [Except.ok.injEq, Prod.mk.injEq] at h
    obtain ⟨hms, -⟩ := h
    have base : List.Sorted (fun a c : Mood => c.id ≤ a.id)
        ((moodQueryRows db u false cursorId (args.limit + 1)).map rowToMood) := by
      rw [List.Sorted, List.pairwise_map]
      exact moodQueryRows_sorted_desc db u cursorId (args.limit + 1)
    rw [← hms]
    split
    · exact base.sublist (List.take_sublist _ _)
    · exact base

theorem scanBuiltins_sublist (c : String) :
    ∀ (l : List Mood) (found : Bool) (rem : Nat), (scanBuiltins c l found rem).1.Sublist l := by
  intro l
  induction l with
  | nil => intro found rem; simp [scanBuiltins]
  | cons m rest ih =>
    intro found rem
    cases found with
    | true =>
      by_cases h1 : (rem == 1) = true
      · simp [scanBuiltins, h1]
      · simp only [scanBuiltins, h1, if_true, if_false, Bool.false_eq_true]
        exact List.Sublist.cons₂ m (ih true (rem - 1))
    | false =>
      by_cases hm : (m.name == c) = true
      · simp only [scanBuiltins, hm, if_true, Bool.false_eq_true, if_false]
        exact List.Sublist.cons m (ih true rem)
      · simp only [scanBuiltins, hm, Bool.false_eq_true, if_false]
        exact List.Sublist.cons m (ih false rem)

theorem listBuiltinMoods_sublist_asc (args : ListArgs) (ms : List Mood) (b : Bool)
    (h : listBuiltinMoods true args = .ok (ms, b)) : ms.Sublist builtinMoods := by
  simp only [listBuiltinMoods, if_true] at h
  split at h
  · exact absurd h (by simp)
  · rw [Except.ok.injEq, Prod.mk.injEq] at h
    obtain ⟨hms, -⟩ := h
    rw [← hms]
    have hscan := scanBuiltins_sublist (args.after) builtinMoods
      (args.after == "" && args.before == "") (args.limit + 1)
    split
    · exact (List.take_sublist _ _).trans hscan
    · exact hscan

theorem listBuiltinMoods_sublist_desc (args : ListArgs) (ms : List Mood) (b : Bool)
    (h : listBuiltinMoods false args = .ok (ms, b)) : ms.Sublist builtinMoods.reverse := by
  simp only [listBuiltinMoods, Bool.false_eq_true, if_false] at h
  split at h
  · exact absurd h (by simp)
  · rw [Except.ok.injEq, Prod.mk.injEq] at h
    obtain ⟨hms, -⟩ := h
    rw [← hms]
    have hscan := scanBuiltins_sublist (args.before) builtinMoods.reverse
      (args.after == "" && args.before == "") (args.limit + 1)
    split
    · exact (List.take_sublist _ _).trans hscan
    · exact hscan

/-- C3: direction and partition order. The listing is ascending exactly
when `after` is set or neither cursor is set; an ascending call is the
merge with the user partition first and the built-in partition second, a
descending call the reverse; the user partition returns moods ordered by
internal sequence id (ascending, resp. descending), and the built-in
partition returns a sublist of the catalog in declared order (ascending),
resp. of the reversed catalog (descending). -/
theorem listMoods_direction_and_order (db : DB) (u : String) (args : ListArgs) :
    sortAsc args = (args.after != "" || args.before == "")
    ∧ ListMoods db u args =
        (if sortAsc args then
          mergeListMoods (userMoodSource db u) listBuiltinMoods "user" "built-in" true args
        else
          mergeListMoods listBuiltinMoods (userMoodSource db u) "built-in" "user" false args)
    ∧ (∀ ms b, listUserMoods db u true args = .ok (ms, b) →
        List.Sorted (fun a c : Mood => a.id ≤ c.id) ms)
    ∧ (∀ ms b, listUserMoods db u false args = .ok (ms, b) →
        List.Sorted (fun a c : Mood => c.id ≤ a.id) ms)
    ∧ (∀ ms b, listBuiltinMoods true args = .ok (ms, b) → ms.Sublist builtinMoods)
    ∧ (∀ ms b, listBuiltinMoods false args = .ok (ms, b) →
        ms.Sublist builtinMoods.reverse) := by
  refine ⟨rfl, rfl, ?_, ?_, ?_, ?_⟩
  · exact fun ms b h => listUserMoods_sorted_asc db u args ms b h
  · exact fun ms b h => listUserMoods_sorted_desc db u args ms b h
  · exact fun ms b h => listBuiltinMoods_sublist_asc args ms b h
  · exact fun ms b h => listBuiltinMoods_sublist_desc args ms b h

/-- Witness for the C3 theorem: at a concrete store, the user partition
comes back ordered by sequence id and the built-in partition is a
catalog sublist. -/
theorem listMoods_direction_and_order_witness :
    List.Sorted (fun a c : Mood => a.id ≤ c.id)
        [⟨"happy", "^^", "  ", true, 1⟩, ⟨"sleepy", "--", "  ", true, 2⟩]
    ∧ ([⟨"default", "oo", "  ", false, 0⟩, ⟨"borg", "==", "  ", false, 0⟩,
        ⟨"dead", "xx", "U ", false, 0⟩] : List Mood).Sublist builtinMoods := by
  obtain ⟨-, -, h3, -, h5, -⟩ :=
    listMoods_direction_and_order twoMoodDB "u" ⟨"", "", 3⟩
  exact ⟨h3 _ false (by decide), h5 _ true (by decide)⟩

/-- The owner's complete user-mood partition in ascending sequence-id
order, as value objects. -/
def ascUserMoods (db : DB) (u : String) : List Mood :=
  (List.insertionSort moodRowLE (db.moods.filter (fun m => m.userId == u))).map rowToMood

/-- The number of user-defined moods the owner has. -/
def userMoodCount (db : DB) (u : String) : Nat :=
  (db.moods.filter (fun m => m.userId == u)).length

theorem ascUserMoods_length (db : DB) (u : String) :
    (ascUserMoods db u).length = userMoodCount db u := by
  simp [ascUserMoods, userMoodCount, List.length_insertionSort]

theorem moodQueryRows_nocursor (db : DB) (u : String) (lim : Nat) :
    moodQueryRows db u true (-1) lim =
      (List.insertionSort moodRowLE (db.moods.filter (fun m => m.userId == u))).take
        (lim + 1) := by
  have hf : db.moods.filter (fun m =>
        m.userId == u && (decide ((-1 : Int) < 0) || decide ((-1 : Int) < m.id)))
      = db.moods.filter (fun m => m.userId == u) := by
    apply List.filter_congr
    intro m hm
    simp
  simp only [moodQueryRows, if_true]
  rw [hf]

theorem listUserMoods_nocursor_asc (db : DB) (u : String) (L : Nat)
    (hle : userMoodCount db u ≤ L) :
    listUserMoods db u true ⟨"", "", L⟩ = .ok (ascUserMoods db u, false) := by
  have hlen : (List.insertionSort moodRowLE (db.moods.filter (fun m => m.userId == u))).length
      = userMoodCount db u := List.length_insertionSort _ _
  have htake : (List.insertionSort moodRowLE
        (db.moods.filter (fun m => m.userId == u))).take (L + 1 + 1)
      = List.insertionSort moodRowLE (db.moods.filter (fun m => m.userId == u)) :=
    List.take_of_length_le (by omega)
  have hmore : (decide ((ascUserMoods db u).length > L)) = false := by
    rw [ascUserMoods_length]
    simp
    omega
  simp only [listUserMoods, beq_self_eq_true, if_true]
  rw [moodQueryRows_nocursor, htake]
  rw [show (List.insertionSort moodRowLE (db.moods.filter (fun m => m.userId == u))).map
        rowToMood = ascUserMoods db u from rfl]
  rw [hmore]
  simp

theorem scanBuiltins_collect (c : String) :
    ∀ (l : List Mood) (rem : Nat), 1 ≤ rem →
      (scanBuiltins c l true rem).1 = l.take rem := by
  intro l
  induction l with
  | nil => intro rem h; simp [scanBuiltins]
  | cons m rest ih =>
    intro rem h
    by_cases h1 : (rem == 1) = true
    · have h1' : rem = 1 := by simpa using h1
      subst h1'
      simp [scanBuiltins]
    · have hne : rem ≠ 1 := by simpa using h1
      obtain ⟨k, rfl⟩ : ∃ k, rem = k + 2 := ⟨rem - 2, by omega⟩
      have h1' : ((k + 2) == 1) = false := by simp
      simp only [scanBuiltins, h1', Bool.false_eq_true, if_false, if_true]
      show m :: (scanBuiltins c rest true (k + 1)).1 = List.take (k + 2) (m :: rest)
      rw [ih (k + 1) (by omega), List.take_succ_cons]

theorem listBuiltinMoods_nocursor (L : Nat) :
    ∃ n b2, listBuiltinMoods true ⟨"", "", L⟩ = .ok (builtinMoods.take n, b2) := by
  have hfound := scanBuiltins_found "" builtinMoods (L + 1)
  have hcol := scanBuiltins_collect "" builtinMoods (L + 1) (by omega)
  simp only [listBuiltinMoods, if_true, beq_self_eq_true, Bool.and_self, hfound, hcol,
    Bool.not_true, Bool.false_eq_true, if_false]
  by_cases hm : (decide ((builtinMoods.take (L + 1)).length > L)) = true
  · refine ⟨L, true, ?_⟩
    rw [hm]
    simp [List.take_take]
  · have hm' : (decide ((builtinMoods.take (L + 1)).length > L)) = false := by
      simpa using hm
    refine ⟨L + 1, false, ?_⟩
    rw [hm']
    simp

theorem listUserMoods_userDefined (db : DB) (u : String) (asc : Bool) (args : ListArgs)
    (ms : List Mood) (b : Bool) (h : listUserMoods db u asc args = .ok (ms, b)) :
    ∀ m ∈ ms, m.userDefined = true := by
  simp only [listUserMoods] at h
  split at h
  · exact absurd h (by simp)
  · rename_i cursorId heq
    rw [Except.ok.injEq, Prod.mk.injEq] at h
    obtain ⟨hms, -⟩ := h
    intro m hm
    rw [← hms] at hm
    have hmem : m ∈ (moodQueryRows db u asc cursorId (args.limit + 1)).map rowToMood := by
      split at hm
      · exact List.mem_of_mem_take hm
      · exact hm
    obtain ⟨r, -, hr⟩ := List.mem_map.mp hmem
    rw [← hr]
    rfl

/-- C4, amended: the user-mood partition is ordered by internal sequence
id (insertion order), not alphabetically. An ascending listing with no
cursor and a limit at least the owner's user-mood count returns all the
user-defined moods, in ascending sequence order, followed by a prefix of
the catalog in declared order; any descending page is a sublist of the
reversed catalog followed by user moods in descending sequence order. -/
theorem listMoods_partition_order_amended (db : DB) (u : String) (L : Nat)
    (args : ListArgs) (ms : List Mood) (b : Bool)
    (hcount : userMoodCount db u ≤ L) :
    (∃ n bb, ListMoods db u ⟨"", "", L⟩ =
      .ok (ascUserMoods db u ++ builtinMoods.take n, bb))
    ∧ (sortAsc args = false → ListMoods db u args = .ok (ms, b) →
        ∃ cs us, ms = cs ++ us ∧ cs.Sublist builtinMoods.reverse
          ∧ List.Sorted (fun a c : Mood => c.id ≤ a.id) us
          ∧ ∀ m ∈ us, m.userDefined = true) := by
  constructor
  · have hu : userMoodSource db u true ⟨"", "", L⟩ = .ok (ascUserMoods db u, false) :=
      listUserMoods_nocursor_asc db u L hcount
    by_cases hearly :
        ((ascUserMoods db u).length == L - (ascUserMoods db u).length) = true
    · refine ⟨0, true, ?_⟩
      simp [ListMoods, sortAsc, mergeListMoods, hu, hearly]
    · obtain ⟨n, b2, h2⟩ := listBuiltinMoods_nocursor (L - (ascUserMoods db u).length)
      refine ⟨n, b2, ?_⟩
      simp [ListMoods, sortAsc, mergeListMoods, mergeSecond, hu, hearly, h2]
  · intro hdir hok
    have hlm : ListMoods db u args =
        mergeListMoods listBuiltinMoods (userMoodSource db u) "built-in" "user" false args := by
      simp [ListMoods, hdir]
    rw [hlm] at hok
    rcases h1 : listBuiltinMoods false args with e1 | ⟨cs0, b0⟩
    · by_cases he1 : e1 = RepoError.cursorNotFound
      · subst he1
        rcases h2 : userMoodSource db u false args with e2 | ⟨us0, b2⟩
        · simp only [mergeListMoods, mergeSecond, h1, h2, bne_self_eq_false,
            Bool.false_eq_true, if_false] at hok
          split at hok <;> exact absurd hok (by simp)
        · simp [mergeListMoods, mergeSecond, h1, h2] at hok
          refine ⟨[], us0, by simp [← hok.1], by simp, ?_, ?_⟩
          · exact listUserMoods_sorted_desc db u args us0 b2 h2
          · exact listUserMoods_userDefined db u false args us0 b2 h2
      · have hne1 : (e1 != RepoError.cursorNotFound) = true := by simpa using he1
        simp [mergeListMoods, h1, hne1] at hok
    · by_cases hearly : (cs0.length == args.limit - cs0.length) = true
      · simp [mergeListMoods, h1, hearly] at hok
        refine ⟨cs0, [], by simp [← hok.1], ?_, by simp, by simp⟩
        exact listBuiltinMoods_sublist_desc args cs0 b0 h1
      · rcases h2 : userMoodSource db u false (⟨"", "", args.limit - cs0.length⟩ : ListArgs)
          with e2 | ⟨us0, b2⟩
        · exact absurd h2 (listUserMoods_cleared db u false _ _)
        · simp [mergeListMoods, mergeSecond, h1, hearly, h2] at hok
          refine ⟨cs0, us0, by simp [← hok.1], ?_, ?_, ?_⟩
          · exact listBuiltinMoods_sublist_desc args cs0 b0 h1
          · exact listUserMoods_sorted_desc db u _ us0 b2 h2
          · exact listUserMoods_userDefined db u false _ us0 b2 h2

/-- Witness for the C4 amended theorem at a concrete store: the
ascending no-cursor listing is the user partition in sequence order
followed by a catalog prefix, and a concrete descending page splits as
claimed. -/
theorem listMoods_partition_order_amended_witness :
    (∃ n bb, ListMoods twoMoodDB "u" ⟨"", "", 3⟩ =
      .ok (ascUserMoods twoMoodDB "u" ++ builtinMoods.take n, bb))
    ∧ (∃ cs us, [(⟨"wired", "OO", "  ", false, 0⟩ : Mood)] = cs ++ us
        ∧ cs.Sublist builtinMoods.reverse
        ∧ List.Sorted (fun a c : Mood => c.id ≤ a.id) us
        ∧ ∀ m ∈ us, m.userDefined = true) := by
  obtain ⟨h1, h2⟩ := listMoods_partition_order_amended twoMoodDB "u" 3
    ⟨"young", "", 1⟩ [⟨"wired", "OO", "  ", false, 0⟩] true (by decide)
  exact ⟨h1, h2 rfl (by decide)⟩

/-- A store where the user owns mood "foo" (sequence id 1) and one line
referencing it whose denormalized name is "foo". -/
def fooLineDB : DB := ⟨[⟨1, "u", "foo", "oo", "  "⟩], [⟨1, "cv_x", "u", "h"⟩],
  [⟨1, "ln_a", "cow", false, "hi", "foo", some 1, 1⟩]⟩

/-- C8, counterexample: deleting the mood under the non-canonical casing
"FOO" matches the row case-insensitively and hits the foreign-key
violation — the line "ln_a" references that mood — but the conflict
enumeration matches the denormalized mood name case-sensitively and
comes back empty, so the conflict error does not carry the referencing
line's public id. -/
theorem deleteMood_conflict_case_cex :
    DeleteMood fooLineDB "u" "FOO" = .error (.conflict [])
    ∧ referencingLineIds fooLineDB "u" "FOO" = ["ln_a"] := by
  exact ⟨by decide, by decide⟩

/-- Per-user case-insensitive uniqueness of mood names, the store's
unique key over `(user_id, lower(name))`. -/
def moodNamesUnique (db : DB) : Prop :=
  ∀ m1 ∈ db.moods, ∀ m2 ∈ db.moods,
    m1.userId = m2.userId → strLower m1.name = strLower m2.name → m1 = m2

/-- Write-time consistency of the denormalized name column: every line
referencing a mood row of this owner stores exactly that mood's name. -/
def linesConsistent (db : DB) (u : String) : Prop :=
  ∀ l ∈ db.lines, ∀ m ∈ db.moods, l.moodId = some m.id → m.userId = u →
    l.moodName = m.name

/-- C8, amended: the built-in guard fires before any store access for
every built-in name regardless of the store contents; zero affected rows
is exactly the not-found error; a foreign-key violation yields a
conflict carrying the ids from the `findMoodLines` lookup, which matches
the stored mood name case-sensitively against the requested name — and
which equals the ids of the lines actually referencing that mood
whenever the names are unique, the denormalized names are consistent,
and the requested name is the stored one; otherwise the delete
succeeds. -/
theorem deleteMood_amended (db : DB) (u name : String) :
    (isBuiltin name = true → DeleteMood db u name = .error .builtinMood)
    ∧ (isBuiltin name = false →
        (DeleteMood db u name = .error .recordNotFound ↔ matchedMoods db u name = []))
    ∧ (isBuiltin name = false → matchedMoods db u name ≠ [] →
        moodReferenced db u name = true →
        DeleteMood db u name = .error (.conflict (findMoodLines db u name)))
    ∧ (isBuiltin name = false → matchedMoods db u name ≠ [] →
        moodReferenced db u name = false →
        DeleteMood db u name = .ok (removeMood db u name))
    ∧ (moodNamesUnique db → linesConsistent db u →
        (∃ m ∈ db.moods, m.userId = u ∧ m.name = name) →
        findMoodLines db u name = referencingLineIds db u name) := by
  refine ⟨?_, ?_, ?_, ?_, ?_⟩
  · intro hb
    simp [DeleteMood, hb]
  · intro hb
    constructor
    · intro h
      by_cases hm : (matchedMoods db u name).isEmpty = true
      · exact List.isEmpty_iff.mp hm
      · exfalso
        by_cases hr : moodReferenced db u name = true
        · simp [DeleteMood, hb, hm, hr] at h
        · simp [DeleteMood, hb, hm, hr] at h
    · intro h
      simp [DeleteMood, hb, h]
  · intro hb hm hr
    have hm' : ((matchedMoods db u name).isEmpty = true) = False := by
      simp [List.isEmpty_iff, hm]
    simp [DeleteMood, hb, hm', hr]
  · intro hb hm hr
    have hm' : ((matchedMoods db u name).isEmpty = true) = False := by
      simp [List.isEmpty_iff, hm]
    simp [DeleteMood, hb, hm', hr]
  · intro huniq hcons hex
    obtain ⟨m0, hm0, hm0u, hm0n⟩ := hex
    simp only [findMoodLines, referencingLineIds]
    congr 1
    congr 1
    apply List.filter_congr
    intro l hl
    apply Bool.eq_iff_iff.mpr
    simp only [Bool.and_eq_true, List.any_eq_true, beq_iff_eq]
    constructor
    · rintro ⟨⟨m, hm, hmid, hmu⟩, hname⟩
      have hln : l.moodName = m.name := hcons l hl m hm hmid.symm hmu
      refine ⟨m, hm, ⟨hmu, ?_⟩, hmid.symm⟩
      rw [← hln, hname]
    · rintro ⟨m, hm, ⟨hmu, hml⟩, hid⟩
      have hln : l.moodName = m.name := hcons l hl m hm hid hmu
      have hmm0 : m = m0 := huniq m hm m0 hm0 (by rw [hmu, hm0u]) (by rw [hml, hm0n])
      refine ⟨⟨m, hm, hid.symm, hmu⟩, ?_⟩
      rw [hln, hmm0, hm0n]

/-- Witness for the C8 amended theorem: the built-in guard, the conflict
path, and the agreement of the conflict enumeration with the actual
referencing lines under the canonical name. -/
theorem deleteMood_amended_witness :
    DeleteMood fooLineDB "u" "default" = .error .builtinMood
    ∧ DeleteMood fooLineDB "u" "foo" = .error (.conflict (findMoodLines fooLineDB "u" "foo"))
    ∧ findMoodLines fooLineDB "u" "foo" = referencingLineIds fooLineDB "u" "foo" := by
  refine ⟨?_, ?_, ?_⟩
  · exact (deleteMood_amended fooLineDB "u" "default").1 (by decide)
  · exact (deleteMood_amended fooLineDB "u" "foo").2.2.1 (by decide) (by decide) (by decide)
  · exact (deleteMood_amended fooLineDB "u" "foo").2.2.2.2
      (by unfold moodNamesUnique; decide) (by unfold linesConsistent; decide)
      ⟨⟨1, "u", "foo", "oo", "  "⟩, by decide, by decide, by decide⟩

theorem setLineMood_ID (r : LineQueryRec) : (setLineMood r).line.ID = r.line.ID := by
  rcases r with ⟨eyes, tongue, line⟩
  rcases eyes with - | e
  · simp only [setLineMood]
    split <;> rfl
  · rfl

theorem buildLines_ok (rs : List LineQueryRec) (ls : List Line)
    (h : buildLines rs = .ok ls) : ∀ l ∈ ls, l.mood.isSome = true := by
  induction rs generalizing ls with
  | nil =>
    simp only [buildLines, Except.ok.injEq] at h
    subst h
    simp
  | cons r rest ih =>
    simp only [buildLines] at h
    split at h
    · exact absurd h (by simp)
    · rename_i m hm
      split at h
      · exact absurd h (by simp)
      · rename_i ls' hls'
        rw [Except.ok.injEq] at h
        subst h
        intro l hl
        rcases List.mem_cons.mp hl with hl | hl
        · rw [hl, hm]; rfl
        · exact ih ls' hls' l hl

/-- C9: mood resolution on line reads. A scanned line record (whose
`mood` pointer starts nil) resolves to a user-defined mood exactly when
the joined `eyes` column is non-null — in which case the mood is built
from the row with `UserDefined` set — and otherwise the stored mood name
is matched case-insensitively against the catalog, the record keeping a
nil mood on no match. `GetLine` then fails with the fatal invalid-mood
error precisely on an unresolved mood and otherwise returns the line;
every line of a successfully read conversation carries a resolved mood. -/
theorem line_mood_resolution (db : DB) (u cid lid : String) :
    (∀ (r : LineQueryRec) (m : Mood), r.line.mood = none →
        (setLineMood r).line.mood = some m → (m.userDefined = true ↔ r.eyes.isSome = true))
    ∧ (∀ (r : LineQueryRec) (e : String), r.eyes = some e →
        (setLineMood r).line.mood = some ⟨r.line.moodName, e, r.tongue.getD "", true, 0⟩)
    ∧ (∀ (r : LineQueryRec), r.eyes = none →
        (setLineMood r).line.mood =
          (builtinMoods.find? (fun m => eqFold m.name r.line.moodName)).or r.line.mood)
    ∧ (∀ convo l, getConvoRow db u cid = some convo →
        db.lines.find? (fun l0 => l0.conversationId == convo.id && l0.publicId == lid)
          = some l →
        ((setLineMood (mkLineRec db l)).line.mood = none →
            GetLine db u cid lid = .error (.storeErr
              ("Line " ++ l.publicId ++ " does not have a valid mood")))
        ∧ (∀ m, (setLineMood (mkLineRec db l)).line.mood = some m →
            GetLine db u cid lid = .ok (some (setLineMood (mkLineRec db l)).line)))
    ∧ (∀ c, GetConversation db u cid = .ok (some c) →
        ∀ l ∈ c.lines, l.mood.isSome = true) := by
  have hsome : ∀ (r : LineQueryRec) (e : String), r.eyes = some e →
      (setLineMood r).line.mood = some ⟨r.line.moodName, e, r.tongue.getD "", true, 0⟩ := by
    intro r e he
    rcases r with ⟨eyes, tongue, line⟩
    simp only at he
    subst he
    rfl
  have hnone : ∀ (r : LineQueryRec), r.eyes = none →
      (setLineMood r).line.mood =
        (builtinMoods.find? (fun m => eqFold m.name r.line.moodName)).or r.line.mood := by
    intro r he
    rcases r with ⟨eyes, tongue, line⟩
    simp only at he
    subst he
    simp only [setLineMood]
    split
    · rename_i m hm
      simp [hm, Option.or]
    · rename_i hm
      simp [hm, Option.or]
  refine ⟨?_, hsome, hnone, ?_, ?_⟩
  · intro r m hnil h
    rcases he : r.eyes with - | e
    · rw [hnone r he] at h
      rcases hf : builtinMoods.find? (fun b => eqFold b.name r.line.moodName) with - | b
      · rw [hf] at h
        simp only [Option.or] at h
        rw [hnil] at h
        exact absurd h (by simp)
      · rw [hf] at h
        simp only [Option.or, Option.some.injEq] at h
        have hb : b ∈ builtinMoods := List.mem_of_find?_eq_some hf
        have hbu : b.userDefined = false := by
          fin_cases hb <;> rfl
        rw [← h, hbu]
        simp
    · rw [hsome r e he, Option.some.injEq] at h
      rw [← h]
      simp
  · intro convo l hconvo hfind
    constructor
    · intro hm
      simp only [GetLine, hconvo, hfind]
      rw [hm]
      rw [setLineMood_ID]
      rfl
    · intro m hm
      simp only [GetLine, hconvo, hfind]
      rw [hm]
  · intro c hc
    simp only [GetConversation] at hc
    split at hc
    · exact absurd hc (by simp)
    · rename_i convo hconvo
      split at hc
      · exact absurd hc (by simp)
      · rename_i ls hls
        rw [Except.ok.injEq, Option.some.injEq] at hc
        rw [← hc]
        exact buildLines_ok _ ls hls

/-- A store with a conversation and one line whose mood name "Tired"
must resolve against the catalog (null display columns). -/
def tiredLineDB : DB := ⟨[], [⟨1, "cv_x", "u", "h"⟩],
  [⟨1, "ln_a", "cow", false, "hi", "Tired", none, 1⟩]⟩

/-- Witness for the C9 theorem: the concrete line record resolves to the
built-in mood "tired" and `GetLine` returns it. -/
theorem line_mood_resolution_witness :
    GetLine tiredLineDB "u" "cv_x" "ln_a" =
      .ok (some (setLineMood (mkLineRec tiredLineDB
        ⟨1, "ln_a", "cow", false, "hi", "Tired", none, 1⟩)).line) := by
  obtain ⟨-, -, -, h4, -⟩ := line_mood_resolution tiredLineDB "u" "cv_x" "ln_a"
  exact (h4 ⟨1, "cv_x", "u", "h"⟩ ⟨1, "ln_a", "cow", false, "hi", "Tired", none, 1⟩
      (by decide) (by decide)).2 ⟨"tired", "--", "  ", false, 0⟩ (by decide)

end Saypi
